import Mathlib

/-!
Verification of the format-selection, playlist-aggregation, confirmation-gate
and URL-routing logic of the two scripts `ytd.py` and `ytdp.py`.

The pure logic of the scripts is embedded shallowly:

* a yt-dlp format dictionary becomes the structure `Format`; the scripts only
  read the keys `height`, `vcodec`, `acodec`, `filesize`, with `f.get(k, 0)`
  defaulting a missing key to `0` (modelled by `Option` plus `getD`);
* the three "iterate and keep the best so far" loops (best video format in
  `ytd.py`, best video format at the chosen height in `ytdp.py`, best audio
  format in both files) share one shape, embedded once as `pickBest`;
* network access (`ydl.extract_info`) is out of scope: the selection cores
  receive the `formats` list (and, for a playlist, the `entries` list plus a
  per-item fetch oracle) directly, exactly as the bodies of `get_video_info`
  consume them after extraction.
-/

namespace YTDL

/-- Embedding of a yt-dlp format dictionary restricted to the keys the two
scripts read.  A missing key is `none`; `f.get('height', 0)` is `hGet`,
`f.get('filesize', 0)` is `fsGet`. -/
structure Format where
  height : Option Nat
  vcodec : String
  acodec : String
  filesize : Option Nat
deriving DecidableEq

instance {ε α : Type} [DecidableEq ε] [DecidableEq α] : DecidableEq (Except ε α) := fun x y =>
  match x, y with
  | .ok a, .ok b =>
    if h : a = b then .isTrue (congrArg Except.ok h)
    else .isFalse fun hc => h (Except.ok.inj hc)
  | .ok _, .error _ => .isFalse fun hc => Except.noConfusion hc
  | .error _, .ok _ => .isFalse fun hc => Except.noConfusion hc
  | .error e, .error f =>
    if h : e = f then .isTrue (congrArg Except.error h)
    else .isFalse fun hc => h (Except.error.inj hc)

/-- Embedding of `f.get('height', 0)`. -/
def hGet (f : Format) : Nat := f.height.getD 0

/-- Embedding of `f.get('filesize', 0)`. -/
def fsGet (f : Format) : Nat := f.filesize.getD 0

/-- Embedding of the loop shape shared by the three selection loops of the
scripts: scan the list left to right, keep the current candidate `best`, and
replace it by the current element `f` exactly when `f` satisfies the guard `q`
and either no candidate exists yet or the measure `m` of `f` strictly exceeds
the measure of the candidate (`ytd.py` lines 35-40 and 44-48, `ytdp.py` lines
108-113 and 117-121). -/
def pickBest {α : Type} (q : α → Bool) (m : α → Nat) (best : Option α) : List α → Option α
  | [] => best
  | f :: rest =>
    if q f then
      match best with
      | none => pickBest q m (some f) rest
      | some b => if m b < m f then pickBest q m (some f) rest else pickBest q m (some b) rest
    else pickBest q m best rest

/-- Guard of the best-video loop of `ytd.py` (line 37):
`height and height <= target_height and f.get('vcodec') != 'none'`. -/
def videoQualB (target : Nat) (f : Format) : Bool :=
  decide (hGet f ≠ 0 ∧ hGet f ≤ target ∧ f.vcodec ≠ "none")

/-- Best-video loop of `ytd.py` (lines 34-40): among formats passing
`videoQualB`, keep the first one attaining the maximal height. -/
def best_video_ytd (target : Nat) (formats : List Format) : Option Format :=
  pickBest (videoQualB target) hGet none formats

/-- Guard of the best-audio loop of both scripts:
`f.get('acodec') != 'none' and f.get('vcodec') == 'none'`. -/
def audioQualB (f : Format) : Bool :=
  (f.acodec != "none") && (f.vcodec == "none")

/-- Best-audio loop of both scripts (`ytd.py` lines 43-48, `ytdp.py`
lines 116-121): compare candidates by declared file size. -/
def best_audio_format (formats : List Format) : Option Format :=
  pickBest audioQualB fsGet none formats

/-- Embedding of `best_audio_format.get('filesize', 0) if best_audio_format
else 0` (`ytd.py` line 60, `ytdp.py` line 124). -/
def audio_size (formats : List Format) : Nat :=
  match best_audio_format formats with
  | some a => fsGet a
  | none => 0

/-- Embedding of
`sorted(set(f.get('height', 0) for f in formats if f.get('height')))`
(`ytd.py` line 51, `ytdp.py` line 97): the distinct truthy heights in
ascending order. -/
def available_heights (formats : List Format) : List Nat :=
  ((formats.filterMap fun f => if hGet f ≠ 0 then some (hGet f) else none).dedup).insertionSort (· ≤ ·)

/-- Errors raised by the selection cores.  `noneTypeGet` stands for the
`AttributeError` that Python raises at `ytdp.py` line 123 when
`best_video_format` is still `None`. -/
inductive SelErr where
  | noFormats
  | noVideoFormat (availableHeights : List Nat) (suggest : Nat)
  | noSuitable
  | noHeights
  | noneTypeGet
deriving DecidableEq

/-- Result of the single-video selection core of `ytd.py`: the chosen height
(rendered as `f"{actual_height}p"` by the script) and the total size. -/
structure YtdResult where
  resolution : Nat
  size : Nat
deriving DecidableEq

/-- Selection core of `get_video_info` in `ytd.py` (lines 29-70), acting on
the `formats` list supplied by the metadata provider. -/
def ytd_get_video_info (formats : List Format) (target : Nat) : Except SelErr YtdResult :=
  if formats = [] then .error .noFormats
  else
    match best_video_ytd target formats with
    | none =>
      match available_heights formats with
      | [] => .error .noSuitable
      | a :: l =>
        .error (.noVideoFormat (a :: l) (((a :: l).find? fun h2 => decide (h2 ≤ target)).getD a))
    | some v => .ok ⟨hGet v, fsGet v + audio_size formats⟩

/-- Embedding of `find_closest_resolution` of `ytdp.py` (lines 7-24): sort the
heights, walk them in descending order and return the first one `≤ target`;
failing that, return the smallest. -/
def find_closest_resolution (availableHeights : List Nat) (target : Nat) : Option Nat :=
  match availableHeights.insertionSort (· ≤ ·) with
  | [] => none
  | a :: l =>
    match ((a :: l).reverse.find? fun h2 => decide (h2 ≤ target)) with
    | some h2 => some h2
    | none => some a

/-- Result of the single-video selection core of `ytdp.py`: chosen height,
total size, and the list of available heights (the script renders both with a
`p` suffix). -/
structure YtdpResult where
  resolution : Nat
  size : Nat
  available_resolutions : List Nat
deriving DecidableEq

/-- Single-video selection core of `get_video_info` in `ytdp.py`
(lines 92-134), acting on the supplied `formats` list.  When no video-capable
format exists at the chosen height, line 123 dereferences `None` and the
function fails with `noneTypeGet` instead of returning. -/
def ytdp_get_video_info (formats : List Format) (target : Nat) : Except SelErr YtdpResult :=
  if formats = [] then .error .noFormats
  else
    match available_heights formats with
    | [] => .error .noHeights
    | a :: l =>
      match find_closest_resolution (a :: l) target with
      | none => .error .noSuitable
      | some th =>
        match pickBest (fun f => decide (hGet f = th) && (f.vcodec != "none")) fsGet none formats with
        | none => .error .noneTypeGet
        | some v => .ok ⟨th, fsGet v + audio_size formats, a :: l⟩

/-- The `format` option built by `download_video` in `ytd.py` (line 114):
`f'bestvideo[height<={resolution[:-1]}]+bestaudio/best'`. -/
def ytd_format_string (resolution : String) : String :=
  "bestvideo[height<=" ++ resolution.dropRight 1 ++ "]+bestaudio/best"

/-- The `format` option built by `download_video` in `ytdp.py` (line 195):
the literal `'bestvideo[height<=144]+bestaudio/best'`, ignoring `resolution`. -/
def ytdp_format_string (resolution : String) : String :=
  "bestvideo[height<=144]+bestaudio/best"

/-- Accumulator invariant of the shared selection loop: starting from the
candidate `b`, the loop returns a candidate of measure at least `m b`, which
is either `b` itself or a guard-passing element of the list that strictly
beats `b` and every guard-passing element to its left, and which weakly beats
every guard-passing element of the list. -/
theorem pickBest_some_spec {α : Type} (q : α → Bool) (m : α → Nat) :
    ∀ (l : List α) (b : α), ∃ r, pickBest q m (some b) l = some r ∧ m b ≤ m r ∧
      (r = b ∨ ∃ pre post, l = pre ++ r :: post ∧ q r = true ∧ m b < m r ∧
        ∀ g ∈ pre, q g = true → m g < m r) ∧
      (∀ g ∈ l, q g = true → m g ≤ m r) := by
  intro l
  induction l with
  | nil => exact fun b => ⟨b, rfl, le_refl _, Or.inl rfl, by simp⟩
  | cons f rest ih =>
    intro b
    by_cases hq : q f
    · by_cases hlt : m b < m f
      · obtain ⟨r, hr, hle, hdisj, hall⟩ := ih f
        refine ⟨r, by simp [pickBest, hq, hlt, hr], le_trans (le_of_lt hlt) hle, ?_, ?_⟩
        · rcases hdisj with h1 | ⟨pre, post, hsplit, hqr, hlt2, hpre⟩
          · exact Or.inr ⟨[], rest, by rw [h1]; rfl, h1 ▸ hq, h1 ▸ hlt, by simp⟩
          · exact Or.inr ⟨f :: pre, post, by rw [hsplit]; rfl, hqr,
              lt_trans hlt hlt2, by
                intro g hg hqg
                rcases List.mem_cons.mp hg with h2 | h2
                · exact h2 ▸ hlt2
                · exact hpre g h2 hqg⟩
        · intro g hg hqg
          rcases List.mem_cons.mp hg with h2 | h2
          · exact h2 ▸ hle
          · exact hall g h2 hqg
      · obtain ⟨r, hr, hle, hdisj, hall⟩ := ih b
        refine ⟨r, by simp [pickBest, hq, hlt, hr], hle, ?_, ?_⟩
        · rcases hdisj with h1 | ⟨pre, post, hsplit, hqr, hlt2, hpre⟩
          · exact Or.inl h1
          · exact Or.inr ⟨f :: pre, post, by rw [hsplit]; rfl, hqr, hlt2, by
              intro g hg hqg
              rcases List.mem_cons.mp hg with h2 | h2
              · exact h2 ▸ lt_of_le_of_lt (Nat.le_of_not_lt hlt) hlt2
              · exact hpre g h2 hqg⟩
        · intro g hg hqg
          rcases List.mem_cons.mp hg with h2 | h2
          · exact h2 ▸ le_trans (Nat.le_of_not_lt hlt) hle
          · exact hall g h2 hqg
    · obtain ⟨r, hr, hle, hdisj, hall⟩ := ih b
      refine ⟨r, by simp [pickBest, hq, hr], hle, ?_, ?_⟩
      · rcases hdisj with h1 | ⟨pre, post, hsplit, hqr, hlt2, hpre⟩
        · exact Or.inl h1
        · exact Or.inr ⟨f :: pre, post, by rw [hsplit]; rfl, hqr, hlt2, by
            intro g hg hqg
            rcases List.mem_cons.mp hg with h2 | h2
            · exact absurd hqg (h2 ▸ by simp [hq])
            · exact hpre g h2 hqg⟩
      · intro g hg hqg
        rcases List.mem_cons.mp hg with h2 | h2
        · exact absurd hqg (h2 ▸ by simp [hq])
        · exact hall g h2 hqg

/-- Main characterization of the shared selection loop: if some element passes
the guard, the loop returns the first element attaining the maximal measure
among guard-passing elements. -/
theorem pickBest_spec {α : Type} (q : α → Bool) (m : α → Nat) :
    ∀ l : List α, (∃ f ∈ l, q f = true) → ∃ pre r post,
      pickBest q m none l = some r ∧ l = pre ++ r :: post ∧ q r = true ∧
      (∀ g ∈ pre, q g = true → m g < m r) ∧
      (∀ g ∈ l, q g = true → m g ≤ m r) := by
  intro l
  induction l with
  | nil => rintro ⟨f, hf, -⟩; exact absurd hf (List.not_mem_nil f)
  | cons f rest ih =>
    intro hex
    by_cases hq : q f
    · obtain ⟨r, hr, hle, hdisj, hall⟩ := pickBest_some_spec q m rest f
      have hrun : pickBest q m none (f :: rest) = some r := by
        simp [pickBest, hq, hr]
      rcases hdisj with h1 | ⟨pre, post, hsplit, hqr, hlt2, hpre⟩
      · refine ⟨[], r, rest, hrun, by rw [h1]; rfl, h1 ▸ hq, by simp, ?_⟩
        intro g hg hqg
        rcases List.mem_cons.mp hg with h2 | h2
        · exact h2 ▸ h1 ▸ le_refl _
        · exact hall g h2 hqg
      · refine ⟨f :: pre, r, post, hrun, by rw [hsplit]; rfl, hqr, ?_, ?_⟩
        · intro g hg hqg
          rcases List.mem_cons.mp hg with h2 | h2
          · exact h2 ▸ hlt2
          · exact hpre g h2 hqg
        · intro g hg hqg
          rcases List.mem_cons.mp hg with h2 | h2
          · exact h2 ▸ hle
          · exact hall g h2 hqg
    · have hex2 : ∃ g ∈ rest, q g = true := by
        obtain ⟨g, hg, hqg⟩ := hex
        rcases List.mem_cons.mp hg with h2 | h2
        · exact absurd hqg (h2 ▸ by simp [hq])
        · exact ⟨g, h2, hqg⟩
      obtain ⟨pre, r, post, hrun, hsplit, hqr, hpre, hall⟩ := ih hex2
      refine ⟨f :: pre, r, post, by simp [pickBest, hq, hrun], by rw [hsplit]; rfl, hqr, ?_, ?_⟩
      · intro g hg hqg
        rcases List.mem_cons.mp hg with h2 | h2
        · exact absurd hqg (h2 ▸ by simp [hq])
        · exact hpre g h2 hqg
      · intro g hg hqg
        rcases List.mem_cons.mp hg with h2 | h2
        · exact absurd hqg (h2 ▸ by simp [hq])
        · exact hall g h2 hqg

/-- The shared selection loop started without a candidate returns `none`
exactly when no element passes the guard. -/
theorem pickBest_eq_none_iff {α : Type} (q : α → Bool) (m : α → Nat) (l : List α) :
    pickBest q m none l = none ↔ ∀ f ∈ l, q f = false := by
  constructor
  · intro hnone
    by_contra hcon
    push_neg at hcon
    obtain ⟨f, hf, hqf⟩ := hcon
    obtain ⟨pre, r, post, hrun, -⟩ :=
      pickBest_spec q m l ⟨f, hf, Bool.not_eq_false _ ▸ hqf⟩
    rw [hrun] at hnone
    exact Option.noConfusion hnone
  · intro hall
    induction l with
    | nil => rfl
    | cons f rest ih =>
      have hq : q f = false := hall f (List.mem_cons_self f rest)
      simp only [pickBest, hq]
      exact ih fun g hg => hall g (List.mem_cons_of_mem f hg)

/-- Appending a single element to the scanned list only matters when the scan
of the prefix fails. -/
theorem find?_append_one {α : Type} (p : α → Bool) :
    ∀ (xs : List α) (a : α),
      List.find? p (xs ++ [a]) =
        match List.find? p xs with
        | some b => some b
        | none => if p a then some a else none := by
  intro xs a
  induction xs with
  | nil => cases hpa : p a <;> simp [List.find?, hpa]
  | cons x xs ih =>
    cases hpx : p x <;> simp [List.find?, hpx, ih]

/-- Scanning an ascending list from the right for the first element `≤ t`
either fails, in which case every element exceeds `t`, or returns an element
`≤ t` that dominates every element `≤ t`. -/
theorem sorted_reverse_find (t : Nat) :
    ∀ s : List Nat, List.Sorted (· ≤ ·) s →
      (s.reverse.find? (fun h2 => decide (h2 ≤ t)) = none ∧ ∀ y ∈ s, ¬ y ≤ t) ∨
      (∃ h2, s.reverse.find? (fun h2 => decide (h2 ≤ t)) = some h2 ∧ h2 ∈ s ∧ h2 ≤ t ∧
        ∀ y ∈ s, y ≤ t → y ≤ h2) := by
  intro s
  induction s with
  | nil => intro _; exact Or.inl ⟨rfl, by simp⟩
  | cons a l ih =>
    intro hsorted
    have ha : ∀ b ∈ l, a ≤ b := (List.sorted_cons.mp hsorted).1
    have hrev : (a :: l).reverse = l.reverse ++ [a] := by simp
    rcases ih (List.sorted_cons.mp hsorted).2 with ⟨hnone, hfail⟩ | ⟨h2, hfind, hmem, hle, hdom⟩
    · by_cases hat : a ≤ t
      · refine Or.inr ⟨a, ?_, List.mem_cons_self a l, hat, ?_⟩
        · rw [hrev, find?_append_one, hnone]
          simp [hat]
        · intro y hy hyt
          rcases List.mem_cons.mp hy with h3 | h3
          · exact h3 ▸ le_refl a
          · exact absurd hyt (hfail y h3)
      · refine Or.inl ⟨?_, ?_⟩
        · rw [hrev, find?_append_one, hnone]
          simp [hat]
        · intro y hy
          rcases List.mem_cons.mp hy with h3 | h3
          · exact h3 ▸ hat
          · exact hfail y h3
    · refine Or.inr ⟨h2, ?_, List.mem_cons_of_mem a hmem, hle, ?_⟩
      · rw [hrev, find?_append_one, hfind]
      · intro y hy hyt
        rcases List.mem_cons.mp hy with h3 | h3
        · exact h3 ▸ ha h2 hmem
        · exact hdom y h3 hyt

/-- Specification of `find_closest_resolution`: on a non-empty list of heights
it returns the largest height `≤ target` when one exists, and the smallest
height otherwise. -/
theorem find_closest_resolution_spec (avail : List Nat) (t : Nat) (hne : avail ≠ []) :
    ∃ h2, find_closest_resolution avail t = some h2 ∧ h2 ∈ avail ∧
      ((h2 ≤ t ∧ ∀ y ∈ avail, y ≤ t → y ≤ h2) ∨
       ((∀ y ∈ avail, ¬ y ≤ t) ∧ ∀ y ∈ avail, h2 ≤ y)) := by
  have hperm := List.perm_insertionSort (α := Nat) (· ≤ ·) avail
  have hsorted := List.sorted_insertionSort (α := Nat) (· ≤ ·) avail
  unfold find_closest_resolution
  match hs : avail.insertionSort (· ≤ ·) with
  | [] =>
    rw [hs] at hperm
    exact absurd hperm.symm.eq_nil hne
  | a :: l =>
    rw [hs] at hperm hsorted
    have hmem : ∀ y, y ∈ a :: l ↔ y ∈ avail := fun y => hperm.mem_iff
    have ha : ∀ b ∈ l, a ≤ b := (List.sorted_cons.mp hsorted).1
    rcases sorted_reverse_find t (a :: l) hsorted with ⟨hnone, hfail⟩ | ⟨h2, hfind, hmemh, hle, hdom⟩
    · refine ⟨a, ?_, (hmem a).mp (List.mem_cons_self a l), Or.inr ⟨?_, ?_⟩⟩
      · show (match List.find? (fun h2 => decide (h2 ≤ t)) (a :: l).reverse with
          | some h2 => some h2
          | none => some a) = some a
        rw [hnone]
      · exact fun y hy => hfail y ((hmem y).mpr hy)
      · intro y hy
        rcases List.mem_cons.mp ((hmem y).mpr hy) with h3 | h3
        · exact h3 ▸ le_refl a
        · exact ha y h3
    · refine ⟨h2, ?_, (hmem h2).mp hmemh, Or.inl ⟨hle, ?_⟩⟩
      · show (match List.find? (fun h2 => decide (h2 ≤ t)) (a :: l).reverse with
          | some h2 => some h2
          | none => some a) = some h2
        rw [hfind]
      · exact fun y hy hyt => hdom y ((hmem y).mpr hy) hyt

/-- Membership in `available_heights`: exactly the non-zero heights occurring
in the format list. -/
theorem mem_available_heights (formats : List Format) (h2 : Nat) :
    h2 ∈ available_heights formats ↔ (h2 ≠ 0 ∧ ∃ f ∈ formats, hGet f = h2) := by
  unfold available_heights
  rw [List.mem_insertionSort, List.mem_dedup, List.mem_filterMap]
  constructor
  · rintro ⟨f, hf, hsome⟩
    by_cases hz : hGet f ≠ 0
    · rw [if_pos hz] at hsome
      exact ⟨Option.some.inj hsome ▸ hz, f, hf, Option.some.inj hsome⟩
    · rw [if_neg hz] at hsome
      exact Option.noConfusion hsome
  · rintro ⟨hz, f, hf, hfh⟩
    exact ⟨f, hf, by rw [if_pos (hfh ▸ hz), hfh]⟩

/-- The ascending order of `available_heights` makes the suggested fallback of
`ytd.py` line 53 (`next((h for h in available_heights if h <= target),
available_heights[0])`) always evaluate to the head, i.e. the minimum. -/
theorem suggestion_is_min (formats : List Format) (target : Nat) (a : Nat) (l : List Nat)
    (hav : available_heights formats = a :: l) :
    (((a :: l).find? fun h2 => decide (h2 ≤ target)).getD a = a) ∧ ∀ y ∈ a :: l, a ≤ y := by
  have hsorted : List.Sorted (· ≤ ·) (a :: l) := by
    rw [← hav]
    exact List.sorted_insertionSort (· ≤ ·) _
  have ha : ∀ b ∈ l, a ≤ b := (List.sorted_cons.mp hsorted).1
  have hmin : ∀ y ∈ a :: l, a ≤ y := by
    intro y hy
    rcases List.mem_cons.mp hy with h3 | h3
    · exact h3 ▸ le_refl a
    · exact ha y h3
  refine ⟨?_, hmin⟩
  by_cases hat : a ≤ target
  · rw [List.find?_cons_of_pos _ (by simpa using hat)]
    rfl
  · rw [List.find?_eq_none.mpr ?_]
    · rfl
    · intro y hy
      simp only [decide_eq_true_eq]
      exact fun hyt => hat (le_trans (hmin y hy) hyt)

/-- C1 (amended): `find_closest_resolution` picks the largest available height
`≤ target`, falling back to the smallest available height; and whenever the
single-video selection core of `ytdp.py` returns a result, its chosen height
is `≤ target` or the minimum of the available heights.  (The unamended claim
fails: when the chosen height belongs only to video-incapable formats, the
core raises instead of returning, see the counterexample.) -/
theorem closest_fit_selection (avail : List Nat) (t : Nat)
    (formats : List Format) (t2 : Nat) (r : YtdpResult)
    (h1 : avail ≠ []) (h2 : ytdp_get_video_info formats t2 = .ok r) :
    (∃ h3, find_closest_resolution avail t = some h3 ∧ h3 ∈ avail ∧
      ((h3 ≤ t ∧ ∀ y ∈ avail, y ≤ t → y ≤ h3) ∨
       ((∀ y ∈ avail, ¬ y ≤ t) ∧ ∀ y ∈ avail, h3 ≤ y))) ∧
    (r.resolution ≤ t2 ∨
      (r.resolution ∈ available_heights formats ∧
        ∀ y ∈ available_heights formats, r.resolution ≤ y)) := by
  refine ⟨find_closest_resolution_spec avail t h1, ?_⟩
  unfold ytdp_get_video_info at h2
  split at h2
  · exact Except.noConfusion h2
  · split at h2
    · exact Except.noConfusion h2
    · next a l hav =>
      split at h2
      · exact Except.noConfusion h2
      · next th hth =>
        split at h2
        · exact Except.noConfusion h2
        · next v hpick =>
          obtain ⟨h3, hfind, hmemh, hcases⟩ :=
            find_closest_resolution_spec (a :: l) t2 (List.cons_ne_nil a l)
          have hth3 : h3 = th := Option.some.inj (hfind.symm.trans hth)
          have hres : r.resolution = th := by
            cases Except.ok.inj h2
            rfl
          rcases hcases with ⟨hle, -⟩ | ⟨-, hmin⟩
          · exact Or.inl (hres ▸ hth3 ▸ hle)
          · refine Or.inr ⟨?_, ?_⟩
            · rw [hav, hres, ← hth3]
              exact hmemh
            · rw [hav]
              intro y hy
              rw [hres, ← hth3]
              exact hmin y hy

/-- Witness for C1 at concrete inputs: heights `[720, 360]` with target `480`,
and a one-format list on which the `ytdp.py` core succeeds. -/
theorem closest_fit_selection_witness :
    ((([720, 360] : List Nat) ≠ []) ∧
      ytdp_get_video_info [⟨some 360, "avc1", "none", some 10⟩] 480 =
        .ok ⟨360, 10, [360]⟩) ∧
    ((∃ h3, find_closest_resolution [720, 360] 480 = some h3 ∧ h3 ∈ [720, 360] ∧
       ((h3 ≤ 480 ∧ ∀ y ∈ ([720, 360] : List Nat), y ≤ 480 → y ≤ h3) ∨
        ((∀ y ∈ ([720, 360] : List Nat), ¬ y ≤ 480) ∧
          ∀ y ∈ ([720, 360] : List Nat), h3 ≤ y))) ∧
     ((YtdpResult.mk 360 10 [360]).resolution ≤ 480 ∨
       ((YtdpResult.mk 360 10 [360]).resolution ∈
          available_heights [⟨some 360, "avc1", "none", some 10⟩] ∧
        ∀ y ∈ available_heights [⟨some 360, "avc1", "none", some 10⟩],
          (YtdpResult.mk 360 10 [360]).resolution ≤ y))) :=
  ⟨⟨by decide, by decide⟩,
   closest_fit_selection [720, 360] 480 [⟨some 360, "avc1", "none", some 10⟩] 480
     ⟨360, 10, [360]⟩ (by decide) (by decide)⟩

/-- Format list refuting the unamended C1: it is non-empty and contains a
video-capable format with a defined height (720), yet the chosen height is
360, carried only by a video-incapable format. -/
def cex_formats_C1 : List Format :=
  [⟨some 720, "avc1", "none", some 1000⟩, ⟨some 360, "none", "none", some 50⟩]

/-- Counterexample to C1 as stated: on `cex_formats_C1` with target 480 the
`ytdp.py` selection core does not return a chosen height at all — line 123
dereferences `None` and the call fails. -/
theorem closest_fit_selection_cex :
    cex_formats_C1 ≠ [] ∧
    cex_formats_C1.any (fun f => decide (hGet f ≠ 0) && (f.vcodec != "none")) = true ∧
    ytdp_get_video_info cex_formats_C1 480 = .error .noneTypeGet := by
  refine ⟨by decide, by decide, by decide⟩

/-- C2: whenever some format passes the strict-`≤` video guard of `ytd.py`
(defined non-zero height `≤ target` and a video codec), the best-video loop
returns the first such format attaining the maximal qualifying height. -/
theorem strict_le_selection (formats : List Format) (target : Nat)
    (hex : ∃ f ∈ formats, videoQualB target f = true) :
    ∃ pre r post, best_video_ytd target formats = some r ∧
      formats = pre ++ r :: post ∧ videoQualB target r = true ∧
      (∀ g ∈ pre, videoQualB target g = true → hGet g < hGet r) ∧
      (∀ g ∈ formats, videoQualB target g = true → hGet g ≤ hGet r) :=
  pickBest_spec (videoQualB target) hGet formats hex

/-- Format list witnessing C2: two video formats share the maximal qualifying
height 720; the loop keeps the first. -/
def wformats_C2 : List Format :=
  [⟨some 480, "avc1", "none", some 1⟩,
   ⟨some 720, "avc1", "none", some 2⟩,
   ⟨some 720, "vp9", "none", some 3⟩,
   ⟨some 1440, "avc1", "none", some 4⟩]

/-- Witness for C2: on `wformats_C2` with target 1080 the loop selects the
first 720-format. -/
theorem strict_le_selection_witness :
    (∃ f ∈ wformats_C2, videoQualB 1080 f = true) ∧
    (∃ pre r post, best_video_ytd 1080 wformats_C2 = some r ∧
      wformats_C2 = pre ++ r :: post ∧ videoQualB 1080 r = true ∧
      (∀ g ∈ pre, videoQualB 1080 g = true → hGet g < hGet r) ∧
      (∀ g ∈ wformats_C2, videoQualB 1080 g = true → hGet g ≤ hGet r)) ∧
    best_video_ytd 1080 wformats_C2 = some ⟨some 720, "avc1", "none", some 2⟩ :=
  ⟨by decide, strict_le_selection wformats_C2 1080 (by decide), by decide⟩

/-- C3 (amended): when a non-empty format list has no format that is both
video-capable and of defined height, the `ytd.py` selection core fails; the
diagnostic lists exactly the non-zero heights present (sorted, deduplicated)
and its suggested fallback is always the smallest available height — not the
largest height `≤ target` (see the counterexample); with no defined heights
at all it fails with the bare no-suitable-formats error. -/
theorem no_video_format_diagnostic (formats : List Format) (target : Nat)
    (hne : formats ≠ [])
    (hnov : ∀ f ∈ formats, ¬(hGet f ≠ 0 ∧ f.vcodec ≠ "none")) :
    (∀ h2 : Nat, h2 ∈ available_heights formats ↔ (h2 ≠ 0 ∧ ∃ f ∈ formats, hGet f = h2)) ∧
    (available_heights formats = [] → ytd_get_video_info formats target = .error .noSuitable) ∧
    (∀ a l, available_heights formats = a :: l →
      ytd_get_video_info formats target = .error (.noVideoFormat (a :: l) a) ∧
      ∀ y ∈ a :: l, a ≤ y) := by
  have hbvn : best_video_ytd target formats = none := by
    apply (pickBest_eq_none_iff _ _ _).mpr
    intro f hf
    apply decide_eq_false
    rintro ⟨hz, -, hvc⟩
    exact hnov f hf ⟨hz, hvc⟩
  refine ⟨fun h2 => mem_available_heights formats h2, ?_, ?_⟩
  · intro hav
    unfold ytd_get_video_info best_video_ytd at hbvn ⊢
    rw [if_neg hne, hbvn, hav]
  · intro a l hav
    obtain ⟨hsug, hmin⟩ := suggestion_is_min formats target a l hav
    constructor
    · unfold ytd_get_video_info best_video_ytd at hbvn ⊢
      rw [if_neg hne, hbvn, hav]
      show Except.error (SelErr.noVideoFormat (a :: l)
        (((a :: l).find? fun h2 => decide (h2 ≤ target)).getD a)) = _
      rw [hsug]
    · exact hmin

/-- Format list witnessing C3: two video-incapable formats with heights
360 and 720. -/
def wformats_C3 : List Format :=
  [⟨some 360, "none", "none", none⟩, ⟨some 720, "none", "none", none⟩]

/-- Witness for C3 at `wformats_C3` with target 1080. -/
theorem no_video_format_diagnostic_witness :
    (wformats_C3 ≠ [] ∧ ∀ f ∈ wformats_C3, ¬(hGet f ≠ 0 ∧ f.vcodec ≠ "none")) ∧
    ((∀ h2 : Nat, h2 ∈ available_heights wformats_C3 ↔
        (h2 ≠ 0 ∧ ∃ f ∈ wformats_C3, hGet f = h2)) ∧
     (available_heights wformats_C3 = [] →
        ytd_get_video_info wformats_C3 1080 = .error .noSuitable) ∧
     (∀ a l, available_heights wformats_C3 = a :: l →
        ytd_get_video_info wformats_C3 1080 = .error (.noVideoFormat (a :: l) a) ∧
        ∀ y ∈ a :: l, a ≤ y)) :=
  ⟨⟨by decide, by decide⟩, no_video_format_diagnostic wformats_C3 1080 (by decide) (by decide)⟩

/-- Counterexample to C3 as stated: on `wformats_C3`-like data the claim
promises the suggestion 720 (the largest height `≤ 1080`), but the code
suggests 360: line 53 scans `available_heights` in ascending order, so the
first height `≤ target` is the smallest. -/
theorem no_video_format_diagnostic_cex :
    (∀ f ∈ ([⟨some 360, "none", "none", none⟩,
             ⟨some 720, "none", "none", none⟩] : List Format),
        ¬(hGet f ≠ 0 ∧ f.vcodec ≠ "none")) ∧
    ytd_get_video_info
        [⟨some 360, "none", "none", none⟩, ⟨some 720, "none", "none", none⟩] 1080 =
      .error (.noVideoFormat [360, 720] 360) ∧
    (720 : Nat) ≤ 1080 ∧ (360 : Nat) ≠ 720 := by
  refine ⟨by decide, by decide, by decide, by decide⟩

/-- The three formats of the worked example in the specification. -/
def example_formats : List Format :=
  [⟨some 1080, "avc1", "none", some 500000000⟩,
   ⟨some 720, "avc1", "none", some 300000000⟩,
   ⟨some 0, "none", "mp4a", some 20000000⟩]

/-- C8: whenever the `ytd.py` selection core succeeds, the audio format is the
first audio-only format of maximal declared size (or absent, contributing 0),
and the reported size is the chosen video format's size plus the audio size,
missing sizes defaulting to 0; on the specification's worked example the
result is height 1080 with total 520000000. -/
theorem audio_and_size (formats : List Format) (target : Nat) (r : YtdResult)
    (hok : ytd_get_video_info formats target = .ok r) :
    ((∃ pre a post, formats = pre ++ a :: post ∧ audioQualB a = true ∧
        best_audio_format formats = some a ∧ audio_size formats = fsGet a ∧
        (∀ g ∈ pre, audioQualB g = true → fsGet g < fsGet a) ∧
        (∀ g ∈ formats, audioQualB g = true → fsGet g ≤ fsGet a)) ∨
      (best_audio_format formats = none ∧ audio_size formats = 0 ∧
        ∀ g ∈ formats, audioQualB g = false)) ∧
    (∃ v, best_video_ytd target formats = some v ∧ r.resolution = hGet v ∧
      r.size = fsGet v + audio_size formats) ∧
    ytd_get_video_info example_formats 1080 = .ok ⟨1080, 520000000⟩ := by
  refine ⟨?_, ?_, by decide⟩
  · rcases hba : best_audio_format formats with _ | a
    · refine Or.inr ⟨rfl, ?_, (pickBest_eq_none_iff _ _ _).mp hba⟩
      unfold audio_size
      rw [hba]
    · have hex : ∃ f ∈ formats, audioQualB f = true := by
        by_contra hcon
        push_neg at hcon
        have : best_audio_format formats = none :=
          (pickBest_eq_none_iff _ _ _).mpr fun f hf =>
            Bool.not_eq_true _ ▸ hcon f hf
        rw [this] at hba
        exact Option.noConfusion hba
      obtain ⟨pre, b, post, hrun, hsplit, hqb, hpre, hall⟩ :=
        pickBest_spec audioQualB fsGet formats hex
      have hsab : some a = some b :=
        hba.symm.trans (show best_audio_format formats = some b from hrun)
      refine Or.inl ⟨pre, b, post, hsplit, hqb, hsab, ?_, hpre, hall⟩
      unfold audio_size
      rw [hba, Option.some.inj hsab]
  · unfold ytd_get_video_info at hok
    split at hok
    · exact Except.noConfusion hok
    · split at hok
      · split at hok
        · exact Except.noConfusion hok
        · exact Except.noConfusion hok
      · next v hbv =>
        refine ⟨v, hbv, ?_, ?_⟩
        · cases Except.ok.inj hok
          rfl
        · cases Except.ok.inj hok
          rfl

/-- Witness for C8: the theorem applied to the specification's worked
example. -/
theorem audio_and_size_witness :
    ytd_get_video_info example_formats 1080 = .ok ⟨1080, 520000000⟩ ∧
    (∃ v, best_video_ytd 1080 example_formats = some v ∧
      (YtdResult.mk 1080 520000000).resolution = hGet v ∧
      (YtdResult.mk 1080 520000000).size = fsGet v + audio_size example_formats) :=
  ⟨by decide,
   (audio_and_size example_formats 1080 ⟨1080, 520000000⟩ (by decide)).2.1⟩

/-- C9: for every target resolution, both selection cores fail with the
`NoFormatsAvailable` error (`"No formats available for this video"`) on an
empty format list. -/
theorem empty_formats_error (target : Nat) :
    ytd_get_video_info [] target = .error .noFormats ∧
    ytdp_get_video_info [] target = .error .noFormats := by
  constructor <;> rfl

/-- C6: the format constraint that `ytdp.py` passes to the download executor
is the fixed string `bestvideo[height<=144]+bestaudio/best` whatever the
requested resolution, whereas `ytd.py` embeds the requested target height, so
its constraint varies with the resolution and agrees with `ytdp.py`'s only at
`144p`. -/
theorem fixed_download_format (r1 r2 : String) :
    ytdp_format_string r1 = ytdp_format_string r2 ∧
    ytdp_format_string r1 = "bestvideo[height<=144]+bestaudio/best" ∧
    ytd_format_string "1080p" = "bestvideo[height<=1080]+bestaudio/best" ∧
    ytd_format_string "144p" = ytdp_format_string "144p" ∧
    ytd_format_string "1080p" ≠ ytdp_format_string "1080p" ∧
    ytd_format_string "720p" ≠ ytd_format_string "1080p" := by
  refine ⟨rfl, rfl, by decide, by decide, by decide, by decide⟩

/-- Embedding of a flat-extracted playlist entry (`ytdp.py` lines 59-60): the
loop reads `entry.get('url')` and `entry.get('title', 'Unknown Title')`. -/
structure Entry where
  url : Option String
  title : Option String
deriving DecidableEq

/-- Per-item result of the recursive `get_video_info` call inside the playlist
loop (`ytdp.py` line 63): the loop consumes its `title`, `duration` and
`size` fields. -/
structure VideoInfo where
  title : String
  duration : Nat
  size : Nat
deriving DecidableEq

/-- One element of `skipped_videos` (`ytdp.py` lines 69-73). -/
structure SkipRecord where
  title : String
  url : String
  reason : String
deriving DecidableEq

/-- Aggregate state built by the playlist loop (`ytdp.py` lines 51-54). -/
structure Agg where
  videos : List VideoInfo
  skipped : List SkipRecord
  total_size : Nat
  total_duration : Nat
deriving DecidableEq

/-- Playlist summary returned at `ytdp.py` lines 78-86 (the constant
`is_playlist: True` field is omitted). -/
structure PlaylistSummary where
  title : String
  video_count : Nat
  videos : List VideoInfo
  skipped_videos : List SkipRecord
  total_size : Nat
  total_duration : Nat
deriving DecidableEq

/-- Guard chain of the playlist loop (`ytdp.py` lines 58-61): a `None` entry
is skipped silently, as is an entry whose `url` is missing or empty (Python
truthiness); otherwise the loop works with the url and the title defaulted to
`'Unknown Title'`. -/
def entryAccess (oe : Option Entry) : Option (String × String) :=
  match oe with
  | none => none
  | some e =>
    match e.url with
    | none => none
    | some u => if u = "" then none else some (u, e.title.getD "Unknown Title")

/-- The playlist loop of `ytdp.py` (lines 57-75), parameterized by the
per-item pipeline `fetch` (the recursive `get_video_info` call, an external
collaborator).  The Python loop appends successes and skip records in input
order and accumulates the totals; the structural recursion below produces the
same lists and sums. -/
def processEntries (fetch : String → Except String VideoInfo) : List (Option Entry) → Agg
  | [] => ⟨[], [], 0, 0⟩
  | oe :: rest =>
    match entryAccess oe with
    | none => processEntries fetch rest
    | some p =>
      match fetch p.1 with
      | .ok vi =>
        let acc := processEntries fetch rest
        ⟨vi :: acc.videos, acc.skipped, vi.size + acc.total_size, vi.duration + acc.total_duration⟩
      | .error msg =>
        let acc := processEntries fetch rest
        ⟨acc.videos, ⟨p.2, p.1, msg⟩ :: acc.skipped, acc.total_size, acc.total_duration⟩

/-- Playlist branch of `get_video_info` in `ytdp.py` (lines 45-86): fail on an
empty entry list (`"No videos found in playlist"`), otherwise run the loop and
assemble the summary with `video_count = len(videos_info)`. -/
def ytdp_get_playlist_info (fetch : String → Except String VideoInfo)
    (playlistTitle : String) (entries : List (Option Entry)) : Except String PlaylistSummary :=
  if entries = [] then .error "No videos found in playlist"
  else
    .ok ⟨playlistTitle, (processEntries fetch entries).videos.length,
      (processEntries fetch entries).videos, (processEntries fetch entries).skipped,
      (processEntries fetch entries).total_size, (processEntries fetch entries).total_duration⟩

/-- Embedding of `Except.toOption` restricted to what the proofs need. -/
def exceptOk {ε α : Type} : Except ε α → Option α
  | .ok a => some a
  | .error _ => none

/-- Decides whether an entry enters the pipeline and the pipeline fails on
it. -/
def entry_fails (fetch : String → Except String VideoInfo) (oe : Option Entry) : Bool :=
  match entryAccess oe with
  | none => false
  | some p =>
    match fetch p.1 with
    | .ok _ => false
    | .error _ => true

/-- Structural description of the playlist loop: the successes, the skip
records and the totals, each as a direct function of the entry list. -/
theorem processEntries_spec (fetch : String → Except String VideoInfo) :
    ∀ entries : List (Option Entry),
      (processEntries fetch entries).videos =
        entries.filterMap (fun oe => (entryAccess oe).bind fun p => exceptOk (fetch p.1)) ∧
      (processEntries fetch entries).skipped =
        entries.filterMap (fun oe => (entryAccess oe).bind fun p =>
          match fetch p.1 with
          | .ok _ => none
          | .error msg => some ⟨p.2, p.1, msg⟩) ∧
      (processEntries fetch entries).total_size =
        ((processEntries fetch entries).videos.map VideoInfo.size).sum ∧
      (processEntries fetch entries).total_duration =
        ((processEntries fetch entries).videos.map VideoInfo.duration).sum := by
  intro entries
  induction entries with
  | nil => exact ⟨rfl, rfl, rfl, rfl⟩
  | cons oe rest ih =>
    obtain ⟨ihv, ihs, ihsz, ihd⟩ := ih
    rcases hacc : entryAccess oe with _ | p
    · simpa [processEntries, hacc] using ⟨ihv, ihs, ihsz, ihd⟩
    · rcases hfetch : fetch p.1 with msg | vi
      · simpa [processEntries, hacc, hfetch, exceptOk] using ⟨ihv, ihs, ihsz, ihd⟩
      · simpa [processEntries, hacc, hfetch, exceptOk] using ⟨ihv, ihs, ihsz, ihd⟩

/-- Counting lemma for the playlist loop: when every entry enters the
pipeline, the loop keeps `N - K` successes and `K` skip records, `K` being the
number of failing entries. -/
theorem processEntries_lengths (fetch : String → Except String VideoInfo) :
    ∀ entries : List (Option Entry),
      (∀ oe ∈ entries, (entryAccess oe).isSome = true) →
      (processEntries fetch entries).videos.length
          = entries.length - entries.countP (entry_fails fetch) ∧
      (processEntries fetch entries).skipped.length
          = entries.countP (entry_fails fetch) := by
  intro entries
  induction entries with
  | nil => exact fun _ => ⟨rfl, rfl⟩
  | cons oe rest ih =>
    intro hvalid
    have hrest := ih fun g hg => hvalid g (List.mem_cons_of_mem oe hg)
    have hcount : rest.countP (entry_fails fetch) ≤ rest.length :=
      List.countP_le_length _
    rcases hacc : entryAccess oe with _ | p
    · have := hvalid oe (List.mem_cons_self oe rest)
      simp [hacc] at this
    · rcases hfetch : fetch p.1 with msg | vi
      · have hfail : entry_fails fetch oe = true := by
          simp [entry_fails, hacc, hfetch]
        constructor
        · show (processEntries fetch (oe :: rest)).videos.length = _
          simp only [processEntries, hacc, hfetch]
          rw [hrest.1, List.countP_cons_of_pos _ _ hfail, List.length_cons]
          omega
        · show (processEntries fetch (oe :: rest)).skipped.length = _
          simp only [processEntries, hacc, hfetch]
          rw [List.length_cons, hrest.2, List.countP_cons_of_pos _ _ hfail]
      · have hfail : ¬ entry_fails fetch oe = true := by
          simp [entry_fails, hacc, hfetch]
        constructor
        · show (processEntries fetch (oe :: rest)).videos.length = _
          simp only [processEntries, hacc, hfetch]
          rw [List.length_cons, hrest.1, List.countP_cons_of_neg _ _ hfail, List.length_cons]
          omega
        · show (processEntries fetch (oe :: rest)).skipped.length = _
          simp only [processEntries, hacc, hfetch]
          rw [hrest.2, List.countP_cons_of_neg _ _ hfail]

/-- C4 (amended): aggregation over a non-empty playlist of `N` entries, each
present and carrying a non-empty URL, of which exactly `K` fail the per-item
pipeline, succeeds and returns the successes in input order (`N - K` of them)
and `K` skip records, each holding the triggering error's message; no failure
aborts the run.  (As stated the claim also covers `N = 0` and url-less
entries, where the code instead fails with the empty-playlist error or drops
the entry from both sequences, see the counterexample.) -/
theorem playlist_aggregation (fetch : String → Except String VideoInfo)
    (pt : String) (entries : List (Option Entry))
    (hne : entries ≠ [])
    (hvalid : ∀ oe ∈ entries, (entryAccess oe).isSome = true) :
    ∃ s, ytdp_get_playlist_info fetch pt entries = .ok s ∧
      s.videos.length = entries.length - entries.countP (entry_fails fetch) ∧
      s.skipped_videos.length = entries.countP (entry_fails fetch) ∧
      s.videos = entries.filterMap (fun oe => (entryAccess oe).bind fun p => exceptOk (fetch p.1)) ∧
      s.skipped_videos = entries.filterMap (fun oe => (entryAccess oe).bind fun p =>
        match fetch p.1 with
        | .ok _ => none
        | .error msg => some ⟨p.2, p.1, msg⟩) ∧
      s.video_count = s.videos.length := by
  obtain ⟨hv, hs, -, -⟩ := processEntries_spec fetch entries
  obtain ⟨hlenv, hlens⟩ := processEntries_lengths fetch entries hvalid
  refine ⟨⟨pt, (processEntries fetch entries).videos.length,
    (processEntries fetch entries).videos, (processEntries fetch entries).skipped,
    (processEntries fetch entries).total_size, (processEntries fetch entries).total_duration⟩,
    ?_, hlenv, hlens, hv, hs, rfl⟩
  unfold ytdp_get_playlist_info
  rw [if_neg hne]

/-- Fetch oracle used by the playlist witnesses: fails exactly on `"u2"`. -/
def fetchW : String → Except String VideoInfo := fun u =>
  if u = "u2" then .error "boom" else .ok ⟨"t", 3, 7⟩

/-- Entry list used by the playlist witnesses: three valid entries, one of
which fails the pipeline. -/
def entriesW : List (Option Entry) :=
  [some ⟨some "u1", some "A"⟩, some ⟨some "u2", some "B"⟩, some ⟨some "u3", none⟩]

/-- Witness for C4: three valid entries, one failing, give two successes and
one skip record. -/
theorem playlist_aggregation_witness :
    (entriesW ≠ [] ∧ ∀ oe ∈ entriesW, (entryAccess oe).isSome = true) ∧
    (∃ s, ytdp_get_playlist_info fetchW "P" entriesW = .ok s ∧
      s.videos.length = entriesW.length - entriesW.countP (entry_fails fetchW) ∧
      s.skipped_videos.length = entriesW.countP (entry_fails fetchW) ∧
      s.videos = entriesW.filterMap (fun oe => (entryAccess oe).bind fun p => exceptOk (fetchW p.1)) ∧
      s.skipped_videos = entriesW.filterMap (fun oe => (entryAccess oe).bind fun p =>
        match fetchW p.1 with
        | .ok _ => none
        | .error msg => some ⟨p.2, p.1, msg⟩) ∧
      s.video_count = s.videos.length) :=
  ⟨⟨by decide, by decide⟩, playlist_aggregation fetchW "P" entriesW (by decide) (by decide)⟩

/-- Counterexample to C4 as stated: a one-entry playlist whose entry lacks a
URL has `N = 1` and `K = 0` (the pipeline is never invoked, so nothing fails),
yet the returned `items` sequence has length `0`, not `N - K = 1`: the loop
drops the entry from both sequences. -/
theorem playlist_aggregation_cex :
    ytdp_get_playlist_info fetchW "P" [some ⟨none, some "T"⟩] =
      .ok ⟨"P", 0, [], [], 0, 0⟩ ∧
    ([some (⟨none, some "T"⟩ : Entry)] : List (Option Entry)).countP (entry_fails fetchW) = 0 ∧
    ([some (⟨none, some "T"⟩ : Entry)] : List (Option Entry)).length = 1 := by
  refine ⟨by decide, by decide, by decide⟩

/-- C5: every playlist summary the aggregation produces has `total_size` and
`total_duration` equal to the sums of the per-item fields over its `videos`,
and its `skipped_videos` are exactly the records of the entries whose fetch
failed, in input order, with the triggering messages. -/
theorem playlist_totals_invariant (fetch : String → Except String VideoInfo)
    (pt : String) (entries : List (Option Entry)) (s : PlaylistSummary)
    (h : ytdp_get_playlist_info fetch pt entries = .ok s) :
    s.total_size = (s.videos.map VideoInfo.size).sum ∧
    s.total_duration = (s.videos.map VideoInfo.duration).sum ∧
    s.skipped_videos = entries.filterMap (fun oe => (entryAccess oe).bind fun p =>
      match fetch p.1 with
      | .ok _ => none
      | .error msg => some ⟨p.2, p.1, msg⟩) := by
  obtain ⟨hv, hs, hsz, hd⟩ := processEntries_spec fetch entries
  unfold ytdp_get_playlist_info at h
  split at h
  · exact Except.noConfusion h
  · cases Except.ok.inj h
    exact ⟨hsz, hd, hs⟩

/-- Witness for C5 at a concrete two-entry playlist with one failure. -/
theorem playlist_totals_invariant_witness :
    ytdp_get_playlist_info fetchW "P"
        [some ⟨some "u1", some "A"⟩, some ⟨some "u2", some "B"⟩] =
      .ok ⟨"P", 1, [⟨"t", 3, 7⟩], [⟨"B", "u2", "boom"⟩], 7, 3⟩ ∧
    ((PlaylistSummary.mk "P" 1 [⟨"t", 3, 7⟩] [⟨"B", "u2", "boom"⟩] 7 3).total_size
        = ((PlaylistSummary.mk "P" 1 [⟨"t", 3, 7⟩] [⟨"B", "u2", "boom"⟩] 7 3).videos.map
            VideoInfo.size).sum ∧
      (PlaylistSummary.mk "P" 1 [⟨"t", 3, 7⟩] [⟨"B", "u2", "boom"⟩] 7 3).total_duration
        = ((PlaylistSummary.mk "P" 1 [⟨"t", 3, 7⟩] [⟨"B", "u2", "boom"⟩] 7 3).videos.map
            VideoInfo.duration).sum ∧
      (PlaylistSummary.mk "P" 1 [⟨"t", 3, 7⟩] [⟨"B", "u2", "boom"⟩] 7 3).skipped_videos
        = ([some ⟨some "u1", some "A"⟩, some ⟨some "u2", some "B"⟩] : List (Option Entry)).filterMap
            (fun oe => (entryAccess oe).bind fun p =>
              match fetchW p.1 with
              | .ok _ => none
              | .error msg => some ⟨p.2, p.1, msg⟩)) :=
  ⟨by decide,
   playlist_totals_invariant fetchW "P"
     [some ⟨some "u1", some "A"⟩, some ⟨some "u2", some "B"⟩]
     ⟨"P", 1, [⟨"t", 3, 7⟩], [⟨"B", "u2", "boom"⟩], 7, 3⟩ (by decide)⟩

/-- Embedding of Python's `str.lower()` restricted to ASCII (the inputs the
confirmation gate distinguishes are `y` and `n`). -/
def strLower (s : String) : String := ⟨s.data.map Char.toLower⟩

/-- Embedding of the confirmation loop shared by both scripts (`ytd.py`
lines 95-99, `ytdp.py` lines 178-182): read responses in order, lowercase
each, and stop at the first one equal to `y` or `n`; `none` models an input
stream that is exhausted without an accepted response (the loop never
terminates normally, no download happens). -/
def confirm_loop : List String → Option String
  | [] => none
  | r :: rest =>
    if strLower r = "y" ∨ strLower r = "n" then some (strLower r) else confirm_loop rest

/-- Embedding of the decision made after the confirmation loop (`ytd.py`
lines 101-103, `ytdp.py` lines 184-186): an accepted `n` returns without
downloading; otherwise control reaches the download executor call. -/
def download_proceeds (inputs : List String) : Bool :=
  match confirm_loop inputs with
  | none => false
  | some resp => resp != "n"

/-- The confirmation loop only ever accepts `y` or `n`. -/
theorem confirm_loop_accepts : ∀ (inputs : List String) (resp : String),
    confirm_loop inputs = some resp → resp = "y" ∨ resp = "n" := by
  intro inputs
  induction inputs with
  | nil => intro resp h; exact Option.noConfusion h
  | cons r rest ih =>
    intro resp h
    unfold confirm_loop at h
    split at h
    · next hyn =>
      cases Option.some.inj h
      exact hyn
    · exact ih resp h

/-- C7: the download executor is reached only after an explicit affirmative
response: an accepted `n` ends the workflow with no download, an accepted `y`
proceeds, any other response leaves the loop (and the decision) exactly as if
it had not been typed, and an exhausted input stream never reaches the
download call. -/
theorem confirmation_gate (s : String) (rest inputs : List String)
    (h : strLower s ≠ "y" ∧ strLower s ≠ "n") :
    download_proceeds ("n" :: rest) = false ∧
    download_proceeds ("y" :: rest) = true ∧
    confirm_loop (s :: rest) = confirm_loop rest ∧
    download_proceeds (s :: rest) = download_proceeds rest ∧
    download_proceeds [] = false ∧
    (download_proceeds inputs = true ↔ confirm_loop inputs = some "y") := by
  have hnl : strLower "n" = "n" := by decide
  have hyl : strLower "y" = "y" := by decide
  have hs : confirm_loop (s :: rest) = confirm_loop rest := by
    show (if strLower s = "y" ∨ strLower s = "n" then some (strLower s) else confirm_loop rest)
      = confirm_loop rest
    rw [if_neg]
    rintro (h1 | h2)
    · exact h.1 h1
    · exact h.2 h2
  have hn : confirm_loop ("n" :: rest) = some "n" := by
    show (if strLower "n" = "y" ∨ strLower "n" = "n"
      then some (strLower "n") else confirm_loop rest) = some "n"
    rw [hnl, if_pos (Or.inr rfl)]
  have hy : confirm_loop ("y" :: rest) = some "y" := by
    show (if strLower "y" = "y" ∨ strLower "y" = "n"
      then some (strLower "y") else confirm_loop rest) = some "y"
    rw [hyl, if_pos (Or.inl rfl)]
  have hd : ∀ ins : List String, download_proceeds ins =
      (match confirm_loop ins with
       | none => false
       | some resp => resp != "n") := fun _ => rfl
  refine ⟨?_, ?_, hs, ?_, rfl, ?_⟩
  · rw [hd, hn]
    decide
  · rw [hd, hy]
    decide
  · rw [hd, hd, hs]
  · rcases hc : confirm_loop inputs with _ | resp
    · rw [hd, hc]
      constructor
      · intro hfalse
        exact Bool.noConfusion hfalse
      · intro hsome
        exact Option.noConfusion hsome
    · rw [hd, hc]
      rcases confirm_loop_accepts inputs resp hc with hr | hr <;> subst hr
      · constructor
        · intro _
          rfl
        · intro _
          decide
      · constructor
        · intro hcon
          exact absurd hcon (by decide)
        · intro hcon
          exact absurd (Option.some.inj hcon) (by decide)

/-- Witness for C7 with the unrecognized response `"maybe"`, the tail
`["q", "Y"]` and the stream `["what", "Y"]`. -/
theorem confirmation_gate_witness :
    (strLower "maybe" ≠ "y" ∧ strLower "maybe" ≠ "n") ∧
    (download_proceeds ["n", "q", "Y"] = false ∧
     download_proceeds ["y", "q", "Y"] = true ∧
     confirm_loop ["maybe", "q", "Y"] = confirm_loop ["q", "Y"] ∧
     download_proceeds ["maybe", "q", "Y"] = download_proceeds ["q", "Y"] ∧
     download_proceeds [] = false ∧
     (download_proceeds ["what", "Y"] = true ↔ confirm_loop ["what", "Y"] = some "y")) :=
  ⟨by decide, confirmation_gate "maybe" ["q", "Y"] ["what", "Y"] (by decide)⟩

/-- Whether the character list `p` occurs at the start of the character list
`s`. -/
def startsWithL : List Char → List Char → Bool
  | [], _ => true
  | _ :: _, [] => false
  | p :: ps, c :: cs => p == c && startsWithL ps cs

/-- Whether the character list `p` occurs contiguously anywhere inside the
character list `s`. -/
def hasSubL (p : List Char) : List Char → Bool
  | [] => p.isEmpty
  | c :: cs => startsWithL p (c :: cs) || hasSubL p cs

/-- Embedding of the Python substring test `pat in hay`. -/
def str_contains (hay pat : String) : Bool := hasSubL pat.data hay.data

/-- Embedding of the routing test of `download_video` in `ytdp.py` line 144:
`is_playlist = 'playlist' in url or '&list=' in url`. -/
def is_playlist_url (url : String) : Bool :=
  str_contains url "playlist" || str_contains url "&list="

theorem startsWithL_iff : ∀ (p s : List Char),
    startsWithL p s = true ↔ ∃ t, s = p ++ t := by
  intro p
  induction p with
  | nil => intro s; simpa [startsWithL] using ⟨s, rfl⟩
  | cons c cs ih =>
    intro s
    cases s with
    | nil =>
      simp only [startsWithL]
      constructor
      · intro hfalse; exact Bool.noConfusion hfalse
      · rintro ⟨t, ht⟩; exact List.noConfusion ht
    | cons d ds =>
      simp only [startsWithL, Bool.and_eq_true, beq_iff_eq]
      rw [ih ds]
      constructor
      · rintro ⟨hcd, t, ht⟩
        exact ⟨t, by rw [hcd, ht]; rfl⟩
      · rintro ⟨t, ht⟩
        rw [List.cons_append] at ht
        cases ht
        exact ⟨rfl, t, rfl⟩

theorem hasSubL_iff : ∀ (s p : List Char),
    hasSubL p s = true ↔ ∃ a b, s = a ++ p ++ b := by
  intro s
  induction s with
  | nil =>
    intro p
    simp only [hasSubL, List.isEmpty_iff]
    constructor
    · intro hp; exact ⟨[], [], by rw [hp]; rfl⟩
    · rintro ⟨a, b, hab⟩
      rcases a with _ | ⟨x, xs⟩
      · rcases p with _ | ⟨y, ys⟩
        · rfl
        · exact List.noConfusion hab
      · exact List.noConfusion hab
  | cons c cs ih =>
    intro p
    simp only [hasSubL, Bool.or_eq_true]
    rw [startsWithL_iff, ih p]
    constructor
    · rintro (⟨t, ht⟩ | ⟨a, b, hab⟩)
      · exact ⟨[], t, by rw [ht]; rfl⟩
      · exact ⟨c :: a, b, by rw [hab]; rfl⟩
    · rintro ⟨a, b, hab⟩
      rcases a with _ | ⟨x, xs⟩
      · exact Or.inl ⟨b, by simpa using hab⟩
      · right
        rw [List.cons_append, List.cons_append] at hab
        cases hab
        exact ⟨xs, b, rfl⟩

/-- Characterization of `str_contains` as an explicit decomposition of the
haystack. -/
theorem str_contains_iff (hay pat : String) :
    str_contains hay pat = true ↔ ∃ a b : String, hay = a ++ pat ++ b := by
  unfold str_contains
  rw [hasSubL_iff hay.data pat.data]
  constructor
  · rintro ⟨a, b, hab⟩
    refine ⟨⟨a⟩, ⟨b⟩, ?_⟩
    apply String.ext
    simpa [String.data_append] using hab
  · rintro ⟨a, b, hab⟩
    exact ⟨a.data, b.data, by rw [hab]; simp [String.data_append]⟩

/-- C10: `download_video` in `ytdp.py` routes a URL through playlist handling
exactly when it contains the substring `playlist` or the substring `&list=`;
in particular an ordinary watch URL is routed as a single video, while a
single-video URL merely containing `playlist` in its video id is treated as a
playlist. -/
theorem playlist_url_routing (url : String) :
    (is_playlist_url url = true ↔
      ((∃ a b : String, url = a ++ "playlist" ++ b) ∨
       (∃ a b : String, url = a ++ "&list=" ++ b))) ∧
    is_playlist_url "https://www.youtube.com/watch?v=dQw4w9WgXcQ" = false ∧
    is_playlist_url "https://www.youtube.com/watch?v=my_playlist_clip" = true ∧
    is_playlist_url "https://www.youtube.com/playlist?list=PLx" = true ∧
    is_playlist_url "https://www.youtube.com/watch?v=abc&list=PLx" = true := by
  refine ⟨?_, by decide, by decide, by decide, by decide⟩
  unfold is_playlist_url
  rw [Bool.or_eq_true, str_contains_iff, str_contains_iff]

end YTDL
